import Mathlib

/-!
Shallow embedding of the ungoliant shard-pipeline core:
`src/io/langfiles.rs`, `src/pipeline/rayon_shard.rs` and
`src/transformers/content_detector.rs`, with theorems checking the
natural-language specification against it.
-/

namespace Ungoliant

/-- Language tags: the `&'static str` language codes of the Rust source. -/
abbrev Lang := String

/-- The field `ShardContent.inner` (`HashMap<&'static str, Vec<String>>` in
`rayon_shard.rs`), modelled as a partial map from language tags to the stored
sentence sequence. -/
abbrev ShardContent := Lang → Option (List String)

/-- `ShardContent::new`: an empty aggregator (`Default::default`). -/
def ShardContent.new : ShardContent := fun _ => none

/-- `ShardContent::insert`: pushes `sentence` onto the `lang` vector if it
exists (`get_mut` branch), otherwise inserts a fresh one-element vector. -/
def ShardContent.insert (sc : ShardContent) (sentence : String) (lang : Lang) :
    ShardContent :=
  match sc lang with
  | some sentences => fun l => if l = lang then some (sentences ++ [sentence]) else sc l
  | none => fun l => if l = lang then some [sentence] else sc l

/-- Folding `insert` over `(sentence, lang)` pairs, as `RayonShard::run` does
when draining `shard_results` into `sorted_sentences`. -/
def ShardContent.insertAll (ps : List (String × Lang)) (sc : ShardContent) :
    ShardContent :=
  ps.foldl (fun acc p => acc.insert p.1 p.2) sc

/-- The sentences inserted for language `l`, in insertion order. -/
def insertedFor (ps : List (String × Lang)) (l : Lang) : List String :=
  (ps.filter (fun p => p.2 = l)).map Prod.fst

/-- Modelled from the spec: a classifier prediction, "(language-tag, confidence)";
`RayonShard::process_record` only consults the label, so only the label is kept. -/
structure Prediction where
  label : String
deriving DecidableEq

/-- Modelled from the spec: the Record Classifier collaborator (`crate::classify`,
not under `src/`): "predict(line) -> Result<Option<Vec<Prediction>>, ClassifyError>"
returning "zero-or-one ... predictions", of which "only the top prediction is
used"; the optional top prediction is modelled directly. -/
abbrev Classifier := String → Except Unit (Option Prediction)

/-- Strip one trailing carriage return, as Rust `str::lines` does on a
newline-terminated line. -/
def stripCR (l : String) : String := if l.endsWith "\r" then l.dropRight 1 else l

/-- Rust `str::lines`: split on the newline character, drop the optional final
empty segment, and strip a carriage return from every newline-terminated line. -/
def rustLines (s : String) : List String :=
  let parts := s.splitOn "\n"
  if parts.getLast? = some "" then parts.dropLast.map stripCR
  else parts.dropLast.map stripCR ++ [parts.getLast?.getD ""]

/-- The length filter of `RayonShard::process_record`: keep the lines whose
character count exceeds 100 (`line.chars().count() > 100`). -/
def survivingLines (body : String) : List String :=
  (rustLines body).filter (fun line => 100 < line.length)

/-- Per-line body of the `filter_map` in `RayonShard::process_record`: classify
the line (errors become `none` via `.ok()`), then keep it only when the
predicted label is found in the supported registry `LANG` (passed as a list,
since `crate::lang::LANG` is not under `src/`). -/
def per_line (LANG : List Lang) (cls : Classifier) (sentence : String) :
    Option (String × Lang) :=
  match (cls sentence).toOption with
  | some (some pred) =>
    match LANG.find? (fun l => l = pred.label) with
    | some lang => some (sentence, lang)
    | none => none
  | _ => none

/-- `RayonShard::process_record`: `body` models `String::from_utf8(record.body).ok()`
(`none` when the record body is not valid UTF-8); a decoded body is split into
lines, length-filtered, and classified line by line. -/
def process_record (LANG : List Lang) (cls : Classifier) (body : Option String) :
    Option (List (String × Lang)) :=
  match body with
  | some sentences => some ((survivingLines sentences).filterMap (per_line LANG cls))
  | none => none

/-- One shard as the record loop of `RayonShard::run` sees it: each record is
either a read error or a (decoded-or-not) record body. -/
abbrev RawShard := List (Except String (Option String))

/-- The per-shard record loop of `RayonShard::run` (the `filter_map` over
`wetfile`): read errors are logged and skipped, other records go through
`process_record`, whose `None` results are also skipped. -/
def shard_results (LANG : List Lang) (cls : Classifier) (records : RawShard) :
    List (List (String × Lang)) :=
  records.filterMap (fun r =>
    match r with
    | Except.ok body => process_record LANG cls body
    | Except.error _ => none)

/-- The `RayonShard` pipeline configuration (`rayon_shard.rs`). -/
structure RayonShard where
  src : String
  dst : String
  nb_shards : Option Nat
  nb_records : Option Nat

/-- The shard-stream control flow of `RayonShard::run`: directory entries that
fail to open or to parse as gzip WET are silently dropped (the two
`filter_map ... ok()` calls, modelled by the `Option`), the remaining shards are
enumerated and every one of them is processed via the per-shard record loop.
The `take(nb_shards)` present in the source only as a comment is not part of
the control flow, and `nb_records` is never consulted by `run`. -/
def RayonShard.run_processed (p : RayonShard) (LANG : List Lang) (cls : Classifier)
    (entries : List (Option RawShard)) : List (Nat × List (List (String × Lang))) :=
  ((entries.filterMap id).enum).map (fun x => (x.1, shard_results LANG cls x.2))

/-- A line of 101 identical characters, longer than the 100-character filter. -/
def longLine : String := String.mk (List.replicate 101 'a')

/-- Modelled from the spec: the per-language `Writer` (crate `io::writer`, not
under `src/`) "owns an open output stream for one language, a running byte
counter since last rotation, a part index, and a companion metadata stream".
Rotated-away parts are kept as their (item count, byte count) pairs, oldest
first; the current part is the trailing counter pair. -/
structure WriterState where
  closed_parts : List (Nat × Nat)
  cur_items : Nat
  cur_bytes : Nat
  part_size_bytes : Option Nat
deriving DecidableEq

/-- Modelled from the spec: a fresh writer opens its first part, which is
current and empty. -/
def WriterState.init (psb : Option Nat) : WriterState := ⟨[], 0, 0, psb⟩

/-- Modelled from the spec: "before each physical write, checks accumulated
byte count; if it would exceed part_size_bytes AND at least one item has
already been written to the current part, rotates to a new part first (...
resets the byte counter)"; "If part_size_bytes is unset, rotation never
triggers". `s` is the encoded byte size of the written item. -/
def WriterState.write (w : WriterState) (s : Nat) : WriterState :=
  match w.part_size_bytes with
  | some n =>
    if n < w.cur_bytes + s ∧ 0 < w.cur_items then
      ⟨w.closed_parts ++ [(w.cur_items, w.cur_bytes)], 1, s, w.part_size_bytes⟩
    else
      ⟨w.closed_parts, w.cur_items + 1, w.cur_bytes + s, w.part_size_bytes⟩
  | none => ⟨w.closed_parts, w.cur_items + 1, w.cur_bytes + s, w.part_size_bytes⟩

/-- Writing a sequence of item sizes in order. -/
def WriterState.writeAll (w : WriterState) (l : List Nat) : WriterState :=
  l.foldl WriterState.write w

/-- The item count of every part created so far, the current part last. -/
def WriterState.partItemCounts (w : WriterState) : List Nat :=
  w.closed_parts.map Prod.fst ++ [w.cur_items]

/-- The number of parts created so far (the current part included). -/
def WriterState.numParts (w : WriterState) : Nat := w.closed_parts.length + 1

/-- The shared dynamic-registry state of `LangFilesDoc` (`langfiles.rs`):
the writer map (writers carry the identity under which they were constructed)
together with the construction parameters. `constructions` counts every
`WriterDoc::new` call — modelled from the spec, since `WriterDoc` is not under
`src/`: each construction "opens its first part file and metadata stream",
a counted file-opening side effect. -/
structure LangFilesDocState where
  writers : List (Lang × Nat)
  constructions : Nat
  dst : String
  part_size_bytes : Option Nat
deriving DecidableEq

/-- `LangFilesDoc::new`: an empty registry; no writer is constructed. -/
def LangFilesDoc.new (dst : String) (psb : Option Nat) : LangFilesDocState :=
  ⟨[], 0, dst, psb⟩

/-- `LangFilesDoc::new_writer`: constructs a `WriterDoc` (a counted
file-opening effect) and returns its fresh identity. -/
def LangFilesDoc.new_writer (st : LangFilesDocState) (k : Lang) :
    LangFilesDocState × Nat :=
  (⟨st.writers, st.constructions + 1, st.dst, st.part_size_bytes⟩, st.constructions)

/-- `HashMap` lookup on the registry (`contains_key` / `entry` occupancy). -/
def lookupWriter : List (Lang × Nat) → Lang → Option Nat
  | [], _ => none
  | p :: ps, k => if p.1 = k then some p.2 else lookupWriter ps k

/-- `LangFilesDoc::insert_writer`: Rust evaluates the argument of
`entry(k).or_insert(Self::new_writer(..)?)` eagerly, so `new_writer` runs on
every call; the `entry` API then keeps the old writer if `k` is already
present, discarding the fresh one. -/
def insert_writer (st : LangFilesDocState) (k : Lang) : LangFilesDocState :=
  let r := LangFilesDoc.new_writer st k
  match lookupWriter r.1.writers k with
  | some _ => r.1
  | none => ⟨r.1.writers ++ [(k, r.2)], r.1.constructions, r.1.dst, r.1.part_size_bytes⟩

/-- `LangFiles::new` (the Fixed registry): iterate the static registry `LANG`,
constructing one writer per language with `Writer::new` (abstracted as
`mk`, since crate `io::writer` is not under `src/`) and propagating the first
construction failure with `?`. -/
def LangFiles.new {W E : Type} (LANG : List Lang) (mk : Lang → Except E W) :
    Except E (List (Lang × W)) :=
  match LANG with
  | [] => Except.ok []
  | l :: rest =>
    match mk l with
    | Except.error e => Except.error e
    | Except.ok w =>
      match LangFiles.new rest mk with
      | Except.error e => Except.error e
      | Except.ok ws => Except.ok ((l, w) :: ws)

/-- The `close_meta` loop of `LangFiles` / `LangFilesDoc`: call each registered
writer's `close_meta` in iteration order, propagating the first failure with
`?` and returning `Ok(())` otherwise. Each writer's own finalization outcome is
abstract (`WriterDoc::close_meta` is not under `src/`). -/
def close_meta_results {E : Type} : List (Except E Unit) → Except E Unit
  | [] => Except.ok ()
  | r :: rest =>
    match r with
    | Except.ok _ => close_meta_results rest
    | Except.error e => Except.error e

/-- Modelled from the spec: the `Document` metadata (crate `pipeline`, not under
`src/`): an optional content-category annotation plus the remaining metadata
fields, opaque here. -/
structure Metadata where
  annot : Option String
  rest : String
deriving DecidableEq

/-- Modelled from the spec: `Metadata::set_annotation` replaces the annotation
field and nothing else. -/
def Metadata.setAnnot (m : Metadata) (a : Option String) : Metadata :=
  ⟨a, m.rest⟩

/-- Modelled from the spec: a `Document` "holding full text, original headers,
and structured metadata". Header values are kept as the strings their bytes
lossily decode to (`String::from_utf8_lossy` is applied before any use). -/
structure Document where
  content : String
  warc_headers : List (String × String)
  metadata : Metadata
deriving DecidableEq

/-- The WARC `TargetURI` header key. -/
def targetUriKey : String := "WARC-Target-URI"

/-- `HashMap::get` on the WARC headers. -/
def headerGet (hs : List (String × String)) (k : String) : Option String :=
  (hs.find? (fun p => p.1 = k)).map Prod.snd

/-- The external collaborators of `ContentDetector`, abstracted: `Url::from_str`
(crate `url`) and the UT1 `Blocklist` with its `detect_domain` / `detect_url`
predicates and its category `kind`. -/
structure UrlEnv (Url : Type) where
  fromStr : String → Option Url
  detect_domain : Url → Bool
  detect_url : Url → Bool
  kind : String

/-- `ContentDetector::parse_url`: get the `TargetURI` header, lossily decode it
and try to parse it as a URL (`.ok()` turns a parse failure into `None`). -/
def parse_url {Url : Type} (env : UrlEnv Url) (doc : Document) : Option Url :=
  (headerGet doc.warc_headers targetUriKey).bind env.fromStr

/-- `ContentDetector::transform`: `unwrap`s both the header lookup and the URL
parse; a `none` result models the panic on a missing or unparseable
`TargetURI`. On success it annotates the document when the domain is in the
blocklist. -/
def ContentDetector.transform {Url : Type} (env : UrlEnv Url) (doc : Document) :
    Option Document :=
  match headerGet doc.warc_headers targetUriKey with
  | none => none
  | some v =>
    match env.fromStr v with
    | none => none
    | some url =>
      if env.detect_domain url then
        some ⟨doc.content, doc.warc_headers, doc.metadata.setAnnot (some env.kind)⟩
      else
        some doc

/-- `ContentDetector::transform_own`: attempts to extract a valid URL with
`parse_url`; when one is found and the blocklist matches it by domain or by
full URL, sets the annotation; otherwise returns the document unchanged. -/
def ContentDetector.transform_own {Url : Type} (env : UrlEnv Url) (doc : Document) :
    Document :=
  match parse_url env doc with
  | some valid_url =>
    if env.detect_domain valid_url || env.detect_url valid_url then
      ⟨doc.content, doc.warc_headers, doc.metadata.setAnnot (some env.kind)⟩
    else
      doc
  | none => doc

lemma ShardContent.insert_lookup_ne (sc : ShardContent) (s : String) (lang l : Lang)
    (h : l ≠ lang) : (sc.insert s lang) l = sc l := by
  unfold ShardContent.insert
  cases hsc : sc lang <;> simp [h]

lemma ShardContent.insert_lookup_eq (sc : ShardContent) (s : String) (lang : Lang) :
    (sc.insert s lang) lang = some ((sc lang).getD [] ++ [s]) := by
  unfold ShardContent.insert
  cases hsc : sc lang <;> simp

lemma insertedFor_cons (p : String × Lang) (ps : List (String × Lang)) (l : Lang) :
    insertedFor (p :: ps) l =
      if p.2 = l then p.1 :: insertedFor ps l else insertedFor ps l := by
  by_cases h : p.2 = l <;> simp [insertedFor, h]

lemma ShardContent.insertAll_lookup (ps : List (String × Lang)) (sc : ShardContent)
    (l : Lang) :
    ShardContent.insertAll ps sc l =
      match sc l with
      | some xs => some (xs ++ insertedFor ps l)
      | none => if insertedFor ps l = [] then none else some (insertedFor ps l) := by
  induction ps generalizing sc with
  | nil => cases h : sc l <;> simp [ShardContent.insertAll, insertedFor, h]
  | cons p ps ih =>
    have step : ShardContent.insertAll (p :: ps) sc =
        ShardContent.insertAll ps (sc.insert p.1 p.2) := by
      simp [ShardContent.insertAll]
    rw [step, ih, insertedFor_cons]
    by_cases hp : p.2 = l
    · subst hp
      rw [ShardContent.insert_lookup_eq]
      cases h : sc p.2 <;> simp [h, List.append_assoc]
    · rw [ShardContent.insert_lookup_ne sc p.1 p.2 l (fun hc => hp hc.symm)]
      cases h : sc l <;> simp [h, hp]

/-- C4: for every sequence of `insert` calls on a fresh `ShardContent`, each
language's stored sequence is exactly the sentences inserted for that language,
in insertion order, and an insert for one language leaves every other
language's sequence unchanged. -/
theorem C4_aggregator_insert_order :
    (∀ (ps : List (String × Lang)) (l : Lang),
      ShardContent.insertAll ps ShardContent.new l =
        if insertedFor ps l = [] then none else some (insertedFor ps l)) ∧
    (∀ (sc : ShardContent) (s : String) (lang l : Lang), l ≠ lang →
      (sc.insert s lang) l = sc l) := by
  constructor
  · intro ps l
    have h := ShardContent.insertAll_lookup ps ShardContent.new l
    simpa [ShardContent.new] using h
  · intro sc s lang l h
    exact ShardContent.insert_lookup_ne sc s lang l h

/-- Concrete instance of C4: three interleaved inserts for two languages, and
the frame property of a single insert, at explicit inputs. -/
theorem C4_aggregator_insert_order_witness :
    ShardContent.insertAll [("a", "fr"), ("b", "en"), ("c", "fr")] ShardContent.new "fr" =
      some ["a", "c"] ∧
    (ShardContent.new.insert "x" "en") "fr" = ShardContent.new "fr" := by
  refine ⟨by decide, ?_⟩
  exact C4_aggregator_insert_order.2 ShardContent.new "x" "en" "fr" (by decide)

/-- C5: classification-stage failures are skippable and never abort shard
processing: an invalid-UTF-8 body discards the whole record (`process_record`
returns `none`); a decoded body always yields a result (the shard continues),
namely the per-line `filter_map` over the length-filtered lines; a line whose
classification errors, returns no prediction, or predicts a language outside
the registry is discarded individually, leaving the other lines' results
untouched; and a record-level read error (or an invalid-UTF-8 record) is
skipped by the shard loop without failing the shard. -/
theorem C5_skippable_classification_failures (LANG : List Lang) (cls : Classifier) :
    (process_record LANG cls none = none) ∧
    (∀ body, process_record LANG cls (some body) =
      some ((survivingLines body).filterMap (per_line LANG cls))) ∧
    (∀ s, cls s = Except.error () → per_line LANG cls s = none) ∧
    (∀ s, cls s = Except.ok none → per_line LANG cls s = none) ∧
    (∀ s p, cls s = Except.ok (some p) → p.label ∉ LANG →
      per_line LANG cls s = none) ∧
    (∀ pre bad post, per_line LANG cls bad = none →
      (pre ++ bad :: post).filterMap (per_line LANG cls) =
        (pre ++ post).filterMap (per_line LANG cls)) ∧
    (∀ e rest, shard_results LANG cls (Except.error e :: rest) =
      shard_results LANG cls rest) ∧
    (∀ rest, shard_results LANG cls (Except.ok none :: rest) =
      shard_results LANG cls rest) := by
  refine ⟨rfl, fun body => rfl, ?_, ?_, ?_, ?_, ?_, ?_⟩
  · intro s h
    simp [per_line, h, Except.toOption]
  · intro s h
    simp [per_line, h, Except.toOption]
  · intro s p h hnot
    have hfind : LANG.find? (fun l => l = p.label) = none := by
      rw [List.find?_eq_none]
      intro x hx
      simp only [decide_eq_true_eq]
      intro hxe
      exact hnot (hxe ▸ hx)
    simp [per_line, h, Except.toOption, hfind]
  · intro pre bad post h
    simp [List.filterMap_append, List.filterMap_cons, h]
  · intro e rest
    simp [shard_results]
  · intro rest
    simp [shard_results, process_record]

/-- Concrete instance of C5: a classifier that always errors yields no pair for
a line, applied at explicit inputs. -/
theorem C5_skippable_classification_failures_witness :
    (fun _ => (Except.error () : Except Unit (Option Prediction))) "line" =
      Except.error () ∧
    per_line [] (fun _ => Except.error ()) "line" = none :=
  ⟨rfl, (C5_skippable_classification_failures [] (fun _ => Except.error ())).2.2.1
    "line" rfl⟩

/-- C8: exactly the lines whose character count is strictly greater than 100
survive the length filter of `process_record`; every line of 100 characters or
fewer is discarded before classification. -/
theorem C8_length_filter (body line : String) :
    (line ∈ survivingLines body ↔ line ∈ rustLines body ∧ 100 < line.length) ∧
    (line.length ≤ 100 → line ∉ survivingLines body) := by
  constructor
  · simp [survivingLines, List.mem_filter]
  · intro hle hmem
    have h := (List.mem_filter.1 hmem).2
    simp only [decide_eq_true_eq] at h
    omega

/-- Concrete instance of C8: a 5-character line is discarded by the length
filter. -/
theorem C8_length_filter_witness :
    "short".length ≤ 100 ∧ "short" ∉ survivingLines "short" :=
  ⟨by decide, (C8_length_filter "short" "short").2 (by decide)⟩

lemma WriterState.write_cases (w : WriterState) (s : Nat) :
    ((w.write s).closed_parts = w.closed_parts ∧
      (w.write s).cur_items = w.cur_items + 1) ∨
    (0 < w.cur_items ∧
      (w.write s).closed_parts = w.closed_parts ++ [(w.cur_items, w.cur_bytes)] ∧
      (w.write s).cur_items = 1 ∧
      ∃ n, w.part_size_bytes = some n ∧ n < w.cur_bytes + s) := by
  obtain ⟨cp, ci, cb, psb⟩ := w
  cases psb with
  | none => left; simp [WriterState.write]
  | some n =>
    by_cases hc : n < cb + s ∧ 0 < ci
    · right
      refine ⟨hc.2, ?_, ?_, n, rfl, hc.1⟩ <;> simp [WriterState.write, hc]
    · left
      constructor <;> simp [WriterState.write, hc]

lemma WriterState.write_psb (w : WriterState) (s : Nat) :
    (w.write s).part_size_bytes = w.part_size_bytes := by
  obtain ⟨cp, ci, cb, psb⟩ := w
  cases psb with
  | none => rfl
  | some n =>
    by_cases hc : n < cb + s ∧ 0 < ci <;> simp [WriterState.write, hc]

lemma WriterState.write_none (w : WriterState) (s : Nat)
    (h : w.part_size_bytes = none) : (w.write s).closed_parts = w.closed_parts := by
  obtain ⟨cp, ci, cb, psb⟩ := w
  cases psb with
  | none => rfl
  | some n => exact absurd h (by simp)

lemma WriterState.writeAll_none (w : WriterState) (l : List Nat)
    (h : w.part_size_bytes = none) :
    (w.writeAll l).closed_parts = w.closed_parts ∧
    (w.writeAll l).part_size_bytes = none := by
  induction l generalizing w with
  | nil => exact ⟨rfl, h⟩
  | cons x xs ih =>
    have h2 : (w.write x).part_size_bytes = none := (WriterState.write_psb w x).trans h
    have h3 := ih (w.write x) h2
    have h1 := WriterState.write_none w x h
    have hstep : w.writeAll (x :: xs) = (w.write x).writeAll xs := by
      simp [WriterState.writeAll]
    rw [hstep]
    exact ⟨h3.1.trans h1, h3.2⟩

lemma WriterState.writeAll_inv (l : List Nat) (w : WriterState)
    (hclosed : ∀ c ∈ w.closed_parts, 1 ≤ c.1) (hcur : 1 ≤ w.cur_items) :
    (∀ c ∈ (w.writeAll l).closed_parts, 1 ≤ c.1) ∧ 1 ≤ (w.writeAll l).cur_items := by
  induction l generalizing w with
  | nil => exact ⟨hclosed, hcur⟩
  | cons x xs ih =>
    have hstep := WriterState.write_cases w x
    have hclosed2 : ∀ c ∈ (w.write x).closed_parts, 1 ≤ c.1 := by
      rcases hstep with ⟨h1, _⟩ | ⟨hpos, h1, _⟩
      · rw [h1]; exact hclosed
      · rw [h1]
        intro c hc
        rcases List.mem_append.1 hc with hc2 | hc2
        · exact hclosed c hc2
        · rw [List.mem_singleton] at hc2
          subst hc2
          exact hpos
    have hcur2 : 1 ≤ (w.write x).cur_items := by
      rcases hstep with ⟨_, h2⟩ | ⟨_, _, h2, _⟩ <;> omega
    have hrest := ih (w.write x) hclosed2 hcur2
    have heq : w.writeAll (x :: xs) = (w.write x).writeAll xs := by
      simp [WriterState.writeAll]
    rw [heq]
    exact hrest

/-- C3: rotation happens only when the accumulated byte count would exceed the
threshold AND the current part already holds an item, so after any nonempty
write sequence every part holds at least one item; three 20-byte items with
`part_size_bytes = 10` give three one-item parts; and with `part_size_bytes =
none` there is a single part. -/
theorem C3_rotation_no_empty_parts (psb : Option Nat) (l : List Nat) :
    (l ≠ [] → ∀ c ∈ ((WriterState.init psb).writeAll l).partItemCounts, 1 ≤ c) ∧
    ((WriterState.init (some 10)).writeAll [20, 20, 20]).partItemCounts = [1, 1, 1] ∧
    ((WriterState.init none).writeAll l).numParts = 1 ∧
    (∀ (w : WriterState) (s : Nat), (w.write s).numParts ≠ w.numParts →
      0 < w.cur_items ∧ ∃ n, w.part_size_bytes = some n ∧ n < w.cur_bytes + s) := by
  refine ⟨?_, by decide, ?_, ?_⟩
  · intro hne c hc
    obtain ⟨x, xs, rfl⟩ := List.exists_cons_of_ne_nil hne
    have hfirst : ((WriterState.init psb).write x).closed_parts = [] ∧
        1 ≤ ((WriterState.init psb).write x).cur_items := by
      rcases WriterState.write_cases (WriterState.init psb) x with ⟨h1, h2⟩ | ⟨hpos, _⟩
      · constructor
        · rw [h1]; rfl
        · omega
      · exact absurd hpos (by simp [WriterState.init])
    have hclosed0 : ∀ cc ∈ ((WriterState.init psb).write x).closed_parts, 1 ≤ cc.1 := by
      rw [hfirst.1]; intro cc hcc; cases hcc
    have hinv := WriterState.writeAll_inv xs ((WriterState.init psb).write x)
      hclosed0 hfirst.2
    have heq : (WriterState.init psb).writeAll (x :: xs) =
        ((WriterState.init psb).write x).writeAll xs := by
      simp [WriterState.writeAll]
    rw [heq] at hc
    rcases List.mem_append.1 hc with hc2 | hc2
    · obtain ⟨a, ha, rfl⟩ := List.mem_map.1 hc2
      exact hinv.1 a ha
    · rw [List.mem_singleton] at hc2
      subst hc2
      exact hinv.2
  · have h := WriterState.writeAll_none (WriterState.init none) l rfl
    have h2 : ((WriterState.init none).writeAll l).closed_parts = [] := h.1
    simp [WriterState.numParts, h2]
  · intro w s hne
    rcases WriterState.write_cases w s with ⟨h1, _⟩ | ⟨hpos, _, _, hex⟩
    · exact absurd (by simp [WriterState.numParts, h1]) hne
    · exact ⟨hpos, hex⟩

/-- Concrete instance of C3: a single 20-byte write with threshold 10 leaves a
part holding one item. -/
theorem C3_rotation_no_empty_parts_witness :
    ([20] : List Nat) ≠ [] ∧
    1 ∈ ((WriterState.init (some 10)).writeAll [20]).partItemCounts ∧ (1 : Nat) ≤ 1 :=
  ⟨by decide, by decide,
    (C3_rotation_no_empty_parts (some 10) [20]).1 (by decide) 1 (by decide)⟩

lemma lookupWriter_append_self (ws : List (Lang × Nat)) (k : Lang) (n : Nat)
    (h : lookupWriter ws k = none) : lookupWriter (ws ++ [(k, n)]) k = some n := by
  induction ws with
  | nil => simp [lookupWriter]
  | cons p ps ih =>
    by_cases hp : p.1 = k
    · simp [lookupWriter, hp] at h
    · simp only [List.cons_append, lookupWriter, hp, if_neg hp] at h ⊢
      exact ih h

/-- C1 counterexample: on the code as written, calling `insert_writer` twice
with the same tag constructs two writers (the `or_insert` argument is evaluated
eagerly), not exactly one. -/
theorem C1_single_construction_counterexample :
    ¬ ((insert_writer (insert_writer (LangFilesDoc.new "dst" none) "en") "en").constructions
      = 1) := by
  decide

/-- C1 amended: a repeated `insert_writer` with the same tag keeps the existing
writer registered with its state undisturbed (the registry is unchanged and the
tag stays bound to the originally constructed writer), but the
writer-construction (file-opening) side effect occurs again on the repeated
call, the fresh writer being discarded. -/
theorem C1_registry_idempotent_but_reconstructs (st : LangFilesDocState) (k : Lang) :
    (insert_writer (insert_writer st k) k).writers = (insert_writer st k).writers ∧
    (lookupWriter (insert_writer st k).writers k).isSome = true ∧
    (insert_writer (insert_writer st k) k).constructions =
      (insert_writer st k).constructions + 1 := by
  obtain ⟨ws, c, d, psb⟩ := st
  cases h : lookupWriter ws k with
  | some w =>
    have e1 : insert_writer ⟨ws, c, d, psb⟩ k = ⟨ws, c + 1, d, psb⟩ := by
      simp [insert_writer, LangFilesDoc.new_writer, h]
    have e2 : insert_writer ⟨ws, c + 1, d, psb⟩ k = ⟨ws, c + 1 + 1, d, psb⟩ := by
      simp [insert_writer, LangFilesDoc.new_writer, h]
    rw [e1, e2]
    exact ⟨rfl, by simp [h], rfl⟩
  | none =>
    have e1 : insert_writer ⟨ws, c, d, psb⟩ k = ⟨ws ++ [(k, c)], c + 1, d, psb⟩ := by
      simp [insert_writer, LangFilesDoc.new_writer, h]
    have h2 : lookupWriter (ws ++ [(k, c)]) k = some c :=
      lookupWriter_append_self ws k c h
    have e2 : insert_writer ⟨ws ++ [(k, c)], c + 1, d, psb⟩ k =
        ⟨ws ++ [(k, c)], c + 1 + 1, d, psb⟩ := by
      simp [insert_writer, LangFilesDoc.new_writer, h2]
    rw [e1, e2]
    exact ⟨rfl, by simp [h2], rfl⟩

lemma LangFiles_new_ok_iff {W E : Type} (LANG : List Lang) (mk : Lang → Except E W) :
    (∃ ws, LangFiles.new LANG mk = Except.ok ws) ↔
      ∀ l ∈ LANG, ∃ w, mk l = Except.ok w := by
  induction LANG with
  | nil => simp [LangFiles.new]
  | cons l rest ih =>
    cases hm : mk l with
    | error e =>
      have hred : LangFiles.new (l :: rest) mk = Except.error e := by
        simp [LangFiles.new, hm]
      constructor
      · rintro ⟨ws, hws⟩
        rw [hred] at hws
        cases hws
      · intro hall
        obtain ⟨w, hw⟩ := hall l (by simp)
        rw [hm] at hw
        cases hw
    | ok w =>
      cases hr : LangFiles.new rest mk with
      | error e =>
        have hred : LangFiles.new (l :: rest) mk = Except.error e := by
          simp [LangFiles.new, hm, hr]
        constructor
        · rintro ⟨ws, hws⟩
          rw [hred] at hws
          cases hws
        · intro hall
          obtain ⟨ws, hws⟩ := ih.2 (fun x hx => hall x (by simp [hx]))
          rw [hr] at hws
          cases hws
      | ok ws2 =>
        have hred : LangFiles.new (l :: rest) mk = Except.ok ((l, w) :: ws2) := by
          simp [LangFiles.new, hm, hr]
        constructor
        · intro _ x hx
          rcases List.mem_cons.1 hx with rfl | hx2
          · exact ⟨w, hm⟩
          · exact ih.1 ⟨ws2, hr⟩ x hx2
        · intro _
          exact ⟨(l, w) :: ws2, hred⟩

lemma LangFiles_new_ok_spec {W E : Type} (LANG : List Lang) (mk : Lang → Except E W) :
    ∀ ws, LangFiles.new LANG mk = Except.ok ws →
      ws.map Prod.fst = LANG ∧ ∀ p ∈ ws, mk p.1 = Except.ok p.2 := by
  induction LANG with
  | nil =>
    intro ws hws
    simp only [LangFiles.new, Except.ok.injEq] at hws
    subst hws
    simp
  | cons l rest ih =>
    intro ws hws
    cases hm : mk l with
    | error e =>
      rw [show LangFiles.new (l :: rest) mk = Except.error e from by
        simp [LangFiles.new, hm]] at hws
      cases hws
    | ok w =>
      cases hr : LangFiles.new rest mk with
      | error e =>
        rw [show LangFiles.new (l :: rest) mk = Except.error e from by
          simp [LangFiles.new, hm, hr]] at hws
        cases hws
      | ok ws2 =>
        rw [show LangFiles.new (l :: rest) mk = Except.ok ((l, w) :: ws2) from by
          simp [LangFiles.new, hm, hr]] at hws
        have hws2 : (l, w) :: ws2 = ws := by
          injection hws
        subst hws2
        obtain ⟨h1, h2⟩ := ih ws2 hr
        constructor
        · simp [h1]
        · intro p hp
          rcases List.mem_cons.1 hp with rfl | hp2
          · exact hm
          · exact h2 p hp2

/-- C7: the Fixed writer set `LangFiles::new` eagerly constructs exactly one
writer per language of the static registry, in registry order, and fails when
any underlying construction fails; the Dynamic `LangFilesDoc::new` starts with
an empty registry and constructs nothing. -/
theorem C7_eager_fixed_lazy_dynamic (W E : Type) (LANG : List Lang)
    (mk : Lang → Except E W) :
    ((∃ ws, LangFiles.new LANG mk = Except.ok ws) ↔
      ∀ l ∈ LANG, ∃ w, mk l = Except.ok w) ∧
    (∀ ws, LangFiles.new LANG mk = Except.ok ws →
      ws.map Prod.fst = LANG ∧ ∀ p ∈ ws, mk p.1 = Except.ok p.2) ∧
    (∀ (dst : String) (psb : Option Nat),
      (LangFilesDoc.new dst psb).writers = [] ∧
      (LangFilesDoc.new dst psb).constructions = 0) :=
  ⟨LangFiles_new_ok_iff LANG mk, LangFiles_new_ok_spec LANG mk,
    fun _ _ => ⟨rfl, rfl⟩⟩

/-- Concrete instance of C7: a one-language registry whose construction
succeeds yields exactly that language's writer. -/
theorem C7_eager_fixed_lazy_dynamic_witness :
    LangFiles.new ["en"] (fun _ => (Except.ok 0 : Except Unit Nat)) =
      Except.ok [("en", 0)] ∧
    ([("en", (0 : Nat))].map Prod.fst = ["en"]) :=
  ⟨rfl, ((C7_eager_fixed_lazy_dynamic Nat Unit ["en"]
    (fun _ => Except.ok 0)).2.1 [("en", 0)] rfl).1⟩

/-- C6: the `close_meta` loop returns `Ok` exactly when every registered
writer's finalization succeeded, and any error it returns is one propagated
from a writer's finalization. -/
theorem C6_close_meta_propagates (E : Type) (rs : List (Except E Unit)) :
    (close_meta_results rs = Except.ok () ↔ ∀ r ∈ rs, r = Except.ok ()) ∧
    (∀ e, close_meta_results rs = Except.error e → Except.error e ∈ rs) := by
  induction rs with
  | nil => simp [close_meta_results]
  | cons r rest ih =>
    cases r with
    | ok u =>
      cases u
      constructor
      · constructor
        · intro h x hx
          rcases List.mem_cons.1 hx with rfl | hx2
          · rfl
          · exact ih.1.1 h x hx2
        · intro h
          exact ih.1.2 (fun x hx => h x (by simp [hx]))
      · intro e he
        exact List.mem_cons.2 (Or.inr (ih.2 e he))
    | error e0 =>
      constructor
      · constructor
        · intro h
          simp [close_meta_results] at h
        · intro h
          exact absurd (h (Except.error e0) (by simp)) (by simp)
      · intro e he
        have he2 : e0 = e := by
          simp only [close_meta_results] at he
          injection he
        subst he2
        exact List.mem_cons.2 (Or.inl rfl)

/-- Concrete instance of C6: a single failing writer's error is propagated. -/
theorem C6_close_meta_propagates_witness :
    close_meta_results [(Except.error 5 : Except Nat Unit)] = Except.error 5 ∧
    (Except.error 5 : Except Nat Unit) ∈ [(Except.error 5 : Except Nat Unit)] :=
  ⟨rfl, (C6_close_meta_propagates Nat [Except.error 5]).2 5 rfl⟩

/-- C2: the configured caps are not enforced by `RayonShard::run`: with
`nb_shards = some 1` and `nb_records = some 1`, a source of two shards with two
classifiable records each is processed in full — both shards are processed and
both records of each shard produce a result. -/
theorem C2_caps_ignored :
    (RayonShard.run_processed ⟨"src", "dst", some 1, some 1⟩ ["en"]
        (fun _ => Except.ok (some ⟨"en"⟩))
        [some [Except.ok (some longLine), Except.ok (some longLine)],
         some [Except.ok (some longLine), Except.ok (some longLine)]]).map
      (fun x => x.2.length) = [2, 2] := by
  decide

/-- C9: `transform` panics (modelled as `none`) when the `TargetURI` header is
absent or its value does not parse as a URL, while `transform_own` on the same
input is total and returns the document unchanged whenever no valid URL can be
extracted — in particular on every input where `transform` panics. -/
theorem C9_transform_panics_transform_own_total {Url : Type} (env : UrlEnv Url)
    (doc : Document) :
    (headerGet doc.warc_headers targetUriKey = none →
      ContentDetector.transform env doc = none) ∧
    (∀ v, headerGet doc.warc_headers targetUriKey = some v → env.fromStr v = none →
      ContentDetector.transform env doc = none) ∧
    (parse_url env doc = none → ContentDetector.transform_own env doc = doc) ∧
    (ContentDetector.transform env doc = none →
      ContentDetector.transform_own env doc = doc) := by
  refine ⟨?_, ?_, ?_, ?_⟩
  · intro h
    simp [ContentDetector.transform, h]
  · intro v hv hparse
    simp [ContentDetector.transform, hv, hparse]
  · intro h
    simp [ContentDetector.transform_own, h]
  · intro h
    cases hh : headerGet doc.warc_headers targetUriKey with
    | none => simp [ContentDetector.transform_own, parse_url, hh]
    | some v =>
      cases hp : env.fromStr v with
      | none => simp [ContentDetector.transform_own, parse_url, hh, hp]
      | some url =>
        simp only [ContentDetector.transform, hh, hp] at h
        by_cases hd : env.detect_domain url = true <;> simp [hd] at h

/-- Concrete instance of C9: a document without a `TargetURI` header makes
`transform` panic. -/
theorem C9_transform_panics_transform_own_total_witness :
    headerGet (Document.mk "" [] ⟨none, ""⟩).warc_headers targetUriKey = none ∧
    ContentDetector.transform
      (UrlEnv.mk (fun _ => (none : Option Nat)) (fun _ => false) (fun _ => false) "adult")
      (Document.mk "" [] ⟨none, ""⟩) = none :=
  ⟨rfl, (C9_transform_panics_transform_own_total
    (UrlEnv.mk (fun _ => (none : Option Nat)) (fun _ => false) (fun _ => false) "adult")
    (Document.mk "" [] ⟨none, ""⟩)).1 rfl⟩

/-- C10: `transform_own` modifies at most the metadata annotation — content,
headers and the other metadata are returned unchanged — and the annotation
becomes the blocklist kind exactly when a valid URL parses from the `TargetURI`
header and matches by domain or by full URL (otherwise it keeps its previous
value, so on a fresh document it is set iff such a match exists). -/
theorem C10_transform_own_frame {Url : Type} (env : UrlEnv Url) (doc : Document) :
    ((ContentDetector.transform_own env doc).content = doc.content) ∧
    ((ContentDetector.transform_own env doc).warc_headers = doc.warc_headers) ∧
    ((ContentDetector.transform_own env doc).metadata.rest = doc.metadata.rest) ∧
    ((ContentDetector.transform_own env doc).metadata.annot =
      match parse_url env doc with
      | some u =>
        if env.detect_domain u || env.detect_url u then some env.kind
        else doc.metadata.annot
      | none => doc.metadata.annot) ∧
    (doc.metadata.annot = none →
      (((ContentDetector.transform_own env doc).metadata.annot).isSome = true ↔
        ∃ u, parse_url env doc = some u ∧
          (env.detect_domain u || env.detect_url u) = true)) := by
  cases hp : parse_url env doc with
  | none =>
    refine ⟨?_, ?_, ?_, ?_, ?_⟩ <;>
      simp [ContentDetector.transform_own, hp]
  | some u =>
    by_cases hd : (env.detect_domain u || env.detect_url u) = true
    · refine ⟨?_, ?_, ?_, ?_, ?_⟩
      · simp [ContentDetector.transform_own, hp, hd, Metadata.setAnnot]
      · simp [ContentDetector.transform_own, hp, hd, Metadata.setAnnot]
      · simp [ContentDetector.transform_own, hp, hd, Metadata.setAnnot]
      · simp [ContentDetector.transform_own, hp, hd, Metadata.setAnnot]
      · intro _
        constructor
        · intro _
          exact ⟨u, rfl, hd⟩
        · intro _
          simp [ContentDetector.transform_own, hp, hd, Metadata.setAnnot]
    · refine ⟨?_, ?_, ?_, ?_, ?_⟩
      · simp [ContentDetector.transform_own, hp, hd]
      · simp [ContentDetector.transform_own, hp, hd]
      · simp [ContentDetector.transform_own, hp, hd]
      · simp [ContentDetector.transform_own, hp, hd]
      · intro h
        constructor
        · intro hs
          simp [ContentDetector.transform_own, hp, hd, h] at hs
        · rintro ⟨u2, hu2, hmatch⟩
          have hu3 : u = u2 := by injection hu2
          subst hu3
          exact absurd hmatch hd

/-- Concrete instance of C10: a fresh document whose URL parses and matches the
blocklist by domain gets exactly the annotation set. -/
theorem C10_transform_own_frame_witness :
    (Document.mk "c" [("WARC-Target-URI", "http://x")] ⟨none, "m"⟩).metadata.annot
      = none ∧
    (((ContentDetector.transform_own
        (UrlEnv.mk (fun _ => some 0) (fun _ => true) (fun _ => false) "adult")
        (Document.mk "c" [("WARC-Target-URI", "http://x")] ⟨none, "m"⟩)).metadata.annot).isSome
      = true ↔
      ∃ u, parse_url
          (UrlEnv.mk (fun _ => some (0 : Nat)) (fun _ => true) (fun _ => false) "adult")
          (Document.mk "c" [("WARC-Target-URI", "http://x")] ⟨none, "m"⟩) = some u ∧
        ((fun _ => true) u || (fun _ => false) u) = true) :=
  ⟨rfl, (C10_transform_own_frame
    (UrlEnv.mk (fun _ => some (0 : Nat)) (fun _ => true) (fun _ => false) "adult")
    (Document.mk "c" [("WARC-Target-URI", "http://x")] ⟨none, "m"⟩)).2.2.2.2 rfl⟩

end Ungoliant
